import Mathlib

/-!
# Verification of the ISO/IEC 29794-9 Q1 (Effective Area) implementation

Shallow embedding of `src/quality_metrics.py` (and its use in
`src/run_test.py`).  The scorer arithmetic `S_unoccluded / Sc * 100` is
modelled over `ℚ` (the spec mandates real-valued division) and Python's
built-in `round` is modelled as round-half-to-even.  The OpenCV image
loading and segmentation calls are external library code; the repository's
control flow around them (the `try`/`except` boundary, the
no-contours check, the veto, the formula and the cap) is embedded with the
load and segmentation steps abstracted as parameters.
-/

namespace QualityMetrics

/-- Python's built-in `round` on a real-valued quantity: round to the
nearest integer, ties going to the even integer (banker's rounding). -/
def roundHalfEven (x : ℚ) : ℤ :=
  if x - ⌊x⌋ < 1/2 then ⌊x⌋
  else if x - ⌊x⌋ > 1/2 then ⌊x⌋ + 1
  else if ⌊x⌋ % 2 = 0 then ⌊x⌋ else ⌊x⌋ + 1

/-- ISO coefficient for Finger (Clause 5.2.1), `Sc = 20000` in
`calculate_q1`. -/
def Sc : ℕ := 20000

/-- The scorer part of `calculate_q1` (`src/quality_metrics.py` lines
67-75): veto on a zero pixel count, otherwise
`min(100, round(S_unoccluded / Sc * 100))`. -/
def calculate_q1_score (S_unoccluded : ℕ) : ℤ :=
  if S_unoccluded = 0 then 0
  else min 100 (roundHalfEven ((S_unoccluded : ℚ) / (Sc : ℚ) * 100))

/-- The `(Q1_score, S_unoccluded)` pair returned by `calculate_q1` once the
pixel count of the largest filled contour is known: `(0, 0)` when the count
is zero (veto), `(Q1, count)` otherwise. -/
def calculate_q1_fromCount (S_unoccluded : ℕ) : ℤ × ℕ :=
  (calculate_q1_score S_unoccluded, S_unoccluded)

/-- Round a positive rational to the nearest IEEE-754 binary64 value
(round-to-nearest, ties-to-even): `Int.log 2 x` is the binade exponent and
the 53-bit significand is obtained by rounding half-to-even at scale
`2^(e-52)`; the tie parity of that scaled integer is the parity of the
significand's last bit.  The exponent is unbounded here: pixel counts keep
every intermediate far from binary64 overflow and subnormal thresholds, so
those regimes are not modelled.  Nonpositive arguments (unreachable in the
scorer) map to 0. -/
def fl64 (x : ℚ) : ℚ :=
  if x ≤ 0 then 0
  else (roundHalfEven (x / 2 ^ (Int.log 2 x - 52)) : ℚ) * 2 ^ (Int.log 2 x - 52)

/-- The float64 value the code computes for the raw score
`S_unoccluded / Sc * 100`: the integer count converts to float64 exactly
(counts are far below 2^53), then the division and the multiplication each
round correctly to nearest. -/
def q1_raw_float (S_unoccluded : ℕ) : ℚ :=
  fl64 (fl64 ((S_unoccluded : ℚ) / (Sc : ℚ)) * 100)

/-- The scorer of `calculate_q1` under the code's float64 arithmetic:
Python's `round` on a float is the nearest integer — ties to even — of the
float's exact value, and the `min(100, ·)` cap follows. -/
def calculate_q1_score_float (S_unoccluded : ℕ) : ℤ :=
  if S_unoccluded = 0 then 0
  else min 100 (roundHalfEven (q1_raw_float S_unoccluded))

/-! ## Basic facts about `roundHalfEven` -/

theorem floor_le_roundHalfEven (x : ℚ) : ⌊x⌋ ≤ roundHalfEven x := by
  unfold roundHalfEven
  split_ifs <;> omega

theorem roundHalfEven_le_floor_add_one (x : ℚ) :
    roundHalfEven x ≤ ⌊x⌋ + 1 := by
  unfold roundHalfEven
  split_ifs <;> omega

theorem roundHalfEven_nonneg {x : ℚ} (hx : 0 ≤ x) : 0 ≤ roundHalfEven x := by
  have h := floor_le_roundHalfEven x
  have h0 : (0 : ℤ) ≤ ⌊x⌋ := Int.floor_nonneg.mpr hx
  omega

theorem one_le_roundHalfEven {x : ℚ} (hx : 1/2 < x) : 1 ≤ roundHalfEven x := by
  have hf0 : (0 : ℤ) ≤ ⌊x⌋ := Int.floor_nonneg.mpr (by linarith)
  rcases lt_or_le ⌊x⌋ 1 with hf | hf
  · have hf' : ⌊x⌋ = 0 := by omega
    have hfr : ¬ (x - (⌊x⌋ : ℚ) < 1/2) := by rw [hf']; push_cast; linarith
    have hfr' : x - (⌊x⌋ : ℚ) > 1/2 := by rw [hf']; push_cast; linarith
    unfold roundHalfEven
    rw [if_neg hfr, if_pos hfr']
    omega
  · have h := floor_le_roundHalfEven x
    omega

theorem roundHalfEven_eq_zero_of_le_half {x : ℚ} (h0 : 0 ≤ x)
    (hx : x ≤ 1/2) : roundHalfEven x = 0 := by
  have hf : ⌊x⌋ = 0 := by
    have h1 : (0 : ℤ) ≤ ⌊x⌋ := Int.floor_nonneg.mpr h0
    have h2 : ⌊x⌋ ≤ x := Int.floor_le x
    have h3 : (⌊x⌋ : ℚ) ≤ 1/2 := le_trans h2 hx
    by_contra hne
    have : (1 : ℤ) ≤ ⌊x⌋ := by omega
    have : (1 : ℚ) ≤ (⌊x⌋ : ℚ) := by exact_mod_cast this
    linarith
  unfold roundHalfEven
  rw [hf]
  push_cast
  split_ifs with h1 h2
  · rfl
  · linarith
  · rfl

theorem roundHalfEven_mono {x y : ℚ} (hxy : x ≤ y) :
    roundHalfEven x ≤ roundHalfEven y := by
  rcases lt_or_le ⌊x⌋ ⌊y⌋ with hf | hf
  · have h1 := roundHalfEven_le_floor_add_one x
    have h2 := floor_le_roundHalfEven y
    omega
  · have hf' : ⌊x⌋ = ⌊y⌋ := le_antisymm (Int.floor_le_floor hxy) hf
    have hfr : x - (⌊x⌋ : ℚ) ≤ y - (⌊y⌋ : ℚ) := by
      rw [hf']; linarith
    unfold roundHalfEven
    rw [hf']
    split_ifs <;> first | omega | linarith

theorem abs_sub_roundHalfEven_le_half (x : ℚ) :
    |x - (roundHalfEven x : ℚ)| ≤ 1/2 := by
  have hfl := Int.floor_le x
  have hlt := Int.lt_floor_add_one x
  unfold roundHalfEven
  split_ifs with h1 h2 h3
  · rw [abs_of_nonneg (by linarith)]; linarith
  · rw [abs_of_nonpos (by push_cast; linarith)]; push_cast; linarith
  · rw [abs_of_nonneg (by linarith)]; linarith
  · rw [abs_of_nonpos (by push_cast; linarith)]; push_cast; linarith

theorem roundHalfEven_even_of_tie {x : ℚ}
    (h : |x - (roundHalfEven x : ℚ)| = 1/2) : Even (roundHalfEven x) := by
  have hfl := Int.floor_le x
  have hlt := Int.lt_floor_add_one x
  have hhalf : x - (⌊x⌋ : ℚ) = 1/2 := by
    by_contra hne
    unfold roundHalfEven at h
    split_ifs at h with h1 h2 h3
    · rw [abs_of_nonneg (by linarith)] at h; linarith
    · rw [abs_of_nonpos (by push_cast; linarith)] at h
      push_cast at h; linarith
    · rw [abs_of_nonneg (by linarith)] at h; exact hne (by linarith)
    · rw [abs_of_nonpos (by push_cast; linarith)] at h
      push_cast at h
      exact hne (by linarith)
  unfold roundHalfEven
  have h1 : ¬ (x - (⌊x⌋ : ℚ) < 1/2) := by rw [hhalf]; exact lt_irrefl _
  have h2 : ¬ (x - (⌊x⌋ : ℚ) > 1/2) := by rw [hhalf]; exact lt_irrefl _
  rw [if_neg h1, if_neg h2]
  split_ifs with h3
  · exact Int.even_iff.mpr h3
  · have : ⌊x⌋ % 2 = 1 := Int.emod_two_eq_zero_or_one ⌊x⌋ |>.resolve_left h3
    refine Int.even_iff.mpr ?_
    omega

/-! ## Image pipeline model

`calculate_q1` loads a grayscale image with `cv2.imread` (raising, and
catching, a `ValueError` when it returns `None`), thresholds it with Otsu's
method, finds external contours, fills the largest one into a fresh mask of
the image's shape and counts its 255-valued cells.  The OpenCV calls are
external library code; we model the load step as a `LoadResult` and the
threshold/contour/fill steps as a function producing either `none` (the
`if not contours` branch) or a boolean mask over the image grid. -/

/-- A grayscale image: a `height × width` grid of intensities, indexed
`pixel y x` (row-major, as in `image[y, x]`). -/
structure GrayImage where
  height : ℕ
  width : ℕ
  pixel : ℕ → ℕ → ℕ

/-- Outcome of `cv2.imread` plus the `image is None` check: either an
image, or a failure (missing/corrupt/undecodable file, or the raised
`ValueError`), which the surrounding `try`/`except` catches. -/
inductive LoadResult where
  | failure : String → LoadResult
  | ok : GrayImage → LoadResult

/-- `np.sum(mask == 255)` for a boolean mask over a `height × width`
grid: the number of in-bounds cells where the mask holds. -/
def countMask (height width : ℕ) (mask : ℕ → ℕ → Bool) : ℕ :=
  ((Finset.range height ×ˢ Finset.range width).filter fun c => mask c.1 c.2).card

/-- The body of `calculate_q1` after the load step: the no-contours branch
returns `(0, 0)`; otherwise the largest filled contour's mask is counted
and handed to the veto/formula/cap scorer.  `seg` stands for the
deterministic OpenCV threshold-contour-fill composite. -/
def calculate_q1_run (seg : GrayImage → Option (ℕ → ℕ → Bool)) :
    LoadResult → ℤ × ℕ
  | LoadResult.failure _ => (0, 0)
  | LoadResult.ok img =>
    match seg img with
    | none => (0, 0)
    | some mask => calculate_q1_fromCount (countMask img.height img.width mask)

/-- `calculate_q1(image_path)`: load the file at the path (`imread` models
the filesystem/decoder), then run the segmentation-and-scoring body; every
failure is caught and normalized to `(0, 0)`. -/
def calculate_q1 (imread : String → LoadResult)
    (seg : GrayImage → Option (ℕ → ℕ → Bool)) (image_path : String) : ℤ × ℕ :=
  calculate_q1_run seg (imread image_path)

/-! ## The test-fixture generator `create_test_image` -/

/-- The inner double loop of `create_test_image` ("add remaining pixels row
by row"), over an explicit row-major coordinate list, with the early
`break` on `remaining_pixels <= 0` modelled by leaving the image unchanged
once the counter is non-positive (after which no iteration changes it). -/
def fillLoop : List (ℕ × ℕ) → (ℕ → ℕ → ℕ) → ℤ → (ℕ → ℕ → ℕ)
  | [], image, _ => image
  | c :: rest, image, remaining =>
    if remaining ≤ 0 then image
    else if image c.1 c.2 = 0 then
      fillLoop rest (fun y x => if y = c.1 ∧ x = c.2 then 255 else image y x)
        (remaining - 1)
    else fillLoop rest image remaining

/-- Row-major coordinates `(y, x)` for `y ∈ [y0, y1)`, `x ∈ [x0, x1)`. -/
def rowMajor (y0 y1 x0 x1 : ℕ) : List (ℕ × ℕ) :=
  ((List.range (y1 - y0)).map (y0 + ·)).flatMap fun y =>
    ((List.range (x1 - x0)).map (x0 + ·)).map fun x => (y, x)

/-- `create_test_image(width, height, foreground_pixels, _)` as the pixel
grid it writes: a black background, a centered square of side
`ceil(sqrt(actual))` (clamped to the image) set to 255, then the fill-in
loop over that same square region.  `int(np.sqrt(n))` is modelled as
`Nat.sqrt n` (exact floor square root). -/
def create_test_image (width height foreground_pixels : ℕ) : ℕ → ℕ → ℕ :=
  let image : ℕ → ℕ → ℕ := fun _ _ => 0
  let max_pixels := width * height
  let actual_pixels := min foreground_pixels max_pixels
  if 0 < actual_pixels then
    let side0 := Nat.sqrt actual_pixels
    let side1 := if side0 * side0 < actual_pixels then side0 + 1 else side0
    let side_length := min side1 (min width height)
    let start_x := (width - side_length) / 2
    let start_y := (height - side_length) / 2
    let end_x := min (start_x + side_length) width
    let end_y := min (start_y + side_length) height
    let image2 : ℕ → ℕ → ℕ := fun y x =>
      if start_y ≤ y ∧ y < end_y ∧ start_x ≤ x ∧ x < end_x then 255
      else image y x
    let remaining_pixels : ℤ :=
      (actual_pixels : ℤ) - ((end_x - start_x) * (end_y - start_y) : ℕ)
    if 0 < remaining_pixels then
      fillLoop
        (rowMajor start_y (min (start_y + side_length) height)
          start_x (min (start_x + side_length) width))
        image2 remaining_pixels
    else image2
  else image

/-- Number of maximum-intensity (255) cells of a pixel grid within a
`height × width` frame. -/
def foregroundCount (height width : ℕ) (image : ℕ → ℕ → ℕ) : ℕ :=
  countMask height width fun y x => image y x == 255

/-! ## Helper lemmas about the scorer -/

theorem raw_score_eq (p : ℕ) : (p : ℚ) / (Sc : ℚ) * 100 = (p : ℚ) / 200 := by
  rw [Sc]
  push_cast
  ring

theorem calculate_q1_score_nonneg (p : ℕ) : 0 ≤ calculate_q1_score p := by
  unfold calculate_q1_score
  split_ifs with h
  · exact le_refl 0
  · exact le_min (by norm_num) (roundHalfEven_nonneg (by positivity))

theorem calculate_q1_score_le_100 (p : ℕ) : calculate_q1_score p ≤ 100 := by
  unfold calculate_q1_score
  split_ifs with h
  · norm_num
  · exact min_le_left _ _

theorem calculate_q1_score_eq_zero_of_le_100 {p : ℕ} (h : p ≤ 100) :
    calculate_q1_score p = 0 := by
  unfold calculate_q1_score
  split_ifs with h0
  · rfl
  · rw [raw_score_eq]
    have hle : (p : ℚ) / 200 ≤ 1/2 := by
      rw [div_le_iff₀ (by norm_num)]
      have : (p : ℚ) ≤ 100 := by exact_mod_cast h
      linarith
    rw [roundHalfEven_eq_zero_of_le_half (by positivity) hle]
    norm_num

theorem calculate_q1_score_pos_of_gt_100 {p : ℕ} (h : 100 < p) :
    1 ≤ calculate_q1_score p := by
  unfold calculate_q1_score
  rw [if_neg (by omega), raw_score_eq]
  refine le_min (by norm_num) (one_le_roundHalfEven ?_)
  rw [lt_div_iff₀ (by norm_num)]
  have : (101 : ℚ) ≤ (p : ℚ) := by exact_mod_cast h
  linarith

theorem calculate_q1_score_saturates {p : ℕ} (h : 20000 ≤ p) :
    calculate_q1_score p = 100 := by
  unfold calculate_q1_score
  rw [if_neg (by omega), raw_score_eq]
  have hx : (100 : ℚ) ≤ (p : ℚ) / 200 := by
    rw [le_div_iff₀ (by norm_num)]
    have : (20000 : ℚ) ≤ (p : ℚ) := by exact_mod_cast h
    linarith
  have hfl : (100 : ℤ) ≤ ⌊(p : ℚ) / 200⌋ := Int.le_floor.mpr (by exact_mod_cast hx)
  have := floor_le_roundHalfEven ((p : ℚ) / 200)
  exact min_eq_left (by omega)

theorem calculate_q1_score_mono {p q : ℕ} (hpq : p ≤ q) :
    calculate_q1_score p ≤ calculate_q1_score q := by
  rcases Nat.eq_zero_or_pos p with hp | hp
  · rw [hp]
    have : calculate_q1_score 0 = 0 := rfl
    rw [this]
    exact calculate_q1_score_nonneg q
  · unfold calculate_q1_score
    rw [if_neg (by omega), if_neg (by omega), raw_score_eq, raw_score_eq]
    refine min_le_min (le_refl _) (roundHalfEven_mono ?_)
    have hc : (p : ℚ) ≤ (q : ℚ) := by exact_mod_cast hpq
    gcongr

theorem log2_eq_of_bounds {x : ℚ} {e : ℤ} (hx : 0 < x)
    (h1 : (2:ℚ) ^ e ≤ x) (h2 : x < (2:ℚ) ^ (e + 1)) : Int.log 2 x = e := by
  have ha : e ≤ Int.log 2 x :=
    (Int.zpow_le_iff_le_log (by norm_num) hx).mp (by exact_mod_cast h1)
  have hb : Int.log 2 x < e + 1 :=
    (Int.lt_zpow_iff_log_lt (by norm_num) hx).mp (by exact_mod_cast h2)
  omega

theorem fl64_eval {x : ℚ} {e m : ℤ} (hx : 0 < x)
    (h1 : (2:ℚ) ^ e ≤ x) (h2 : x < (2:ℚ) ^ (e + 1))
    (hm : roundHalfEven (x / 2 ^ (e - 52)) = m) :
    fl64 x = (m : ℚ) * 2 ^ (e - 52) := by
  unfold fl64
  rw [if_neg (not_le.mpr hx), log2_eq_of_bounds hx h1 h2, hm]

theorem countMask_le (height width : ℕ) (mask : ℕ → ℕ → Bool) :
    countMask height width mask ≤ height * width := by
  unfold countMask
  calc ((Finset.range height ×ˢ Finset.range width).filter
          fun c => mask c.1 c.2).card
      ≤ (Finset.range height ×ˢ Finset.range width).card :=
        Finset.card_filter_le _ _
    _ = height * width := by
        rw [Finset.card_product, Finset.card_range, Finset.card_range]

/-! ## Concrete fixtures for witnesses -/

/-- A loader on which every read fails, as for a missing or corrupt file. -/
def missingFileLoader : String → LoadResult :=
  fun path => LoadResult.failure ("Could not load image from " ++ path)

/-- A 4×4 image with a 2×2 block of 255-intensity pixels at the top-left
corner on a zero background. -/
def sampleImage : GrayImage :=
  ⟨4, 4, fun y x => if y < 2 ∧ x < 2 then 255 else 0⟩

/-- A loader that decodes every path to `sampleImage`. -/
def sampleLoader : String → LoadResult := fun _ => LoadResult.ok sampleImage

/-- Mask of the maximum-intensity pixels of an image. -/
def thresholdMask (img : GrayImage) : ℕ → ℕ → Bool :=
  fun y x => decide (img.pixel y x = 255)

/-- A segmentation that selects exactly the maximum-intensity pixels. -/
def thresholdSegmenter : GrayImage → Option (ℕ → ℕ → Bool) :=
  fun img => some (thresholdMask img)

/-! ## Claims -/

/-- C1, counterexample: the veto law as an iff fails on the code.  A pixel
count of 1 is nonzero, yet `calculate_q1` scores it 0: the raw score
1/20000·100 = 0.005 rounds to 0 and the cap keeps it there. -/
theorem veto_law_iff_counterexample :
    (calculate_q1_fromCount 1).1 = 0 ∧ (1 : ℕ) ≠ 0 := by
  refine ⟨?_, by norm_num⟩
  show calculate_q1_score 1 = 0
  exact calculate_q1_score_eq_zero_of_le_100 (by norm_num)

/-- C1, amended: the Q1 score of a pixel count `p` is 0 iff `p ≤ 100`.
The veto makes Q1 = 0 at `p = 0`, but every count from 1 to 100 also
receives score 0, because its raw score `p/20000·100 ≤ 0.5` rounds to 0
(the count 100 gives exactly 0.5, which banker's rounding sends to 0). -/
theorem q1_zero_iff_count_le_100 (p : ℕ) :
    (calculate_q1_fromCount p).1 = 0 ↔ p ≤ 100 := by
  constructor
  · intro h
    by_contra hgt
    have h1 := calculate_q1_score_pos_of_gt_100 (show 100 < p by omega)
    have h2 : calculate_q1_score p = 0 := h
    omega
  · intro h
    exact calculate_q1_score_eq_zero_of_le_100 h

/-- C1, amended, witness at `p = 50`. -/
theorem q1_zero_iff_count_le_100_witness : (calculate_q1_fromCount 50).1 = 0 :=
  (q1_zero_iff_count_le_100 50).mpr (by norm_num)

/-- C2: for every pixel count `p ≥ 20000`, the Q1 score is exactly 100:
the raw score is at least 100, so the `min(100, ·)` cap engages. -/
theorem cap_law (p : ℕ) (h : 20000 ≤ p) : (calculate_q1_fromCount p).1 = 100 :=
  calculate_q1_score_saturates h

/-- C2, witness at `p = 25000` (the Test A fixture count, which would give
125 without the cap). -/
theorem cap_law_witness : (calculate_q1_fromCount 25000).1 = 100 :=
  cap_law 25000 (by norm_num)

/-- C3: the scoring formula with `Sc = 20000` maps the pixel counts 5000,
10000 and 20000 to the exact Q1 values 25, 50 and 100. -/
theorem linear_scaling_values :
    (calculate_q1_fromCount 5000).1 = 25 ∧
      (calculate_q1_fromCount 10000).1 = 50 ∧
      (calculate_q1_fromCount 20000).1 = 100 := by
  refine ⟨?_, ?_, ?_⟩ <;>
    norm_num [calculate_q1_fromCount, calculate_q1_score, Sc, roundHalfEven]

/-- C4, counterexample: the code does not round the exact raw score
half-to-even.  At pixel count 10900 the exact raw score `10900/20000·100`
is 54.5, an exact .5 value whose half-to-even rounding is the even 54; but
the code rounds the float64 evaluation `fl(fl(10900/20000)·100) =
54.50000000000000710…`, which is strictly above the tie, so it returns the
odd 55. -/
theorem rounding_half_to_even_counterexample :
    calculate_q1_score_float 10900 = 55 ∧
      ((10900 : ℕ) : ℚ) / (Sc : ℚ) * 100 = 109/2 ∧
      roundHalfEven (((10900 : ℕ) : ℚ) / (Sc : ℚ) * 100) = 54 := by
  refine ⟨?_, by norm_num [Sc], by norm_num [Sc, roundHalfEven]⟩
  have hA : fl64 ((109 : ℚ) / 200) = 4908923593833841 / 9007199254740992 := by
    rw [fl64_eval (e := -1) (m := 4908923593833841) (by norm_num) (by norm_num)
      (by norm_num) (by norm_num [roundHalfEven])]
    norm_num
  have hB : fl64 ((122723089845846025 : ℚ) / 2251799813685248) =
      7670193115365377 / 140737488355328 := by
    rw [fl64_eval (e := 5) (m := 7670193115365377) (by norm_num) (by norm_num)
      (by norm_num) (by norm_num [roundHalfEven])]
    norm_num
  unfold calculate_q1_score_float q1_raw_float
  rw [if_neg (by norm_num)]
  rw [show ((10900 : ℕ) : ℚ) / (Sc : ℚ) = 109/200 by norm_num [Sc], hA]
  rw [show (4908923593833841 / 9007199254740992 : ℚ) * 100 =
      122723089845846025 / 2251799813685248 by norm_num, hB]
  rw [show roundHalfEven ((7670193115365377 : ℚ) / 140737488355328) = 55 by
    norm_num [roundHalfEven]]
  norm_num

/-- C4, amended: for every nonzero pixel count, the returned score is the
cap applied to an integer `r` obtained by round-half-to-even from the
float64 evaluation of the raw score `p / Sc · 100` — `r` is within 1/2 of
that float value, and when the float value is exactly halfway between two
integers, `r` is the even one.  This differs from half-to-even rounding of
the exact raw score at tie counts where the float64 evaluation is inexact
(10900 → 55 instead of 54, 11500 → 57 instead of 58); at p = 100 the float
value is exactly 0.5 and the tie rule does engage. -/
theorem rounding_half_to_even_float (p : ℕ) (hp : p ≠ 0) :
    ∃ r : ℤ, calculate_q1_score_float p = min 100 r ∧
      |q1_raw_float p - (r : ℚ)| ≤ 1/2 ∧
      (|q1_raw_float p - (r : ℚ)| = 1/2 → Even r) := by
  refine ⟨roundHalfEven (q1_raw_float p), ?_,
    abs_sub_roundHalfEven_le_half _, fun h => roundHalfEven_even_of_tie h⟩
  unfold calculate_q1_score_float
  rw [if_neg hp]

/-- C4, amended, witness at `p = 100`. -/
theorem rounding_half_to_even_float_witness :
    ∃ r : ℤ, calculate_q1_score_float 100 = min 100 r ∧
      |q1_raw_float 100 - (r : ℚ)| ≤ 1/2 ∧
      (|q1_raw_float 100 - (r : ℚ)| = 1/2 → Even r) :=
  rounding_half_to_even_float 100 (by norm_num)

/-- C5: the Q1 score is monotone non-decreasing in the pixel count on
[0, 20000] and constantly 100 for every count ≥ 20000. -/
theorem q1_monotone_and_saturates :
    (∀ p q : ℕ, p ≤ 20000 → q ≤ 20000 → p ≤ q →
      (calculate_q1_fromCount p).1 ≤ (calculate_q1_fromCount q).1) ∧
    ∀ p : ℕ, 20000 ≤ p → (calculate_q1_fromCount p).1 = 100 :=
  ⟨fun _ _ _ _ hpq => calculate_q1_score_mono hpq,
    fun _ hp => calculate_q1_score_saturates hp⟩

/-- C5, witness at the pair 4999 ≤ 5001 and at the count 25000. -/
theorem q1_monotone_and_saturates_witness :
    (calculate_q1_fromCount 4999).1 ≤ (calculate_q1_fromCount 5001).1 ∧
      (calculate_q1_fromCount 25000).1 = 100 :=
  ⟨q1_monotone_and_saturates.1 4999 5001 (by norm_num) (by norm_num)
      (by norm_num),
    q1_monotone_and_saturates.2 25000 (by norm_num)⟩

/-- C6: whenever loading or decoding the file at `image_path` fails, the
`try`/`except` boundary of `calculate_q1` normalizes the failure to the
`(0, 0)` sentinel instead of propagating it to the caller. -/
theorem load_error_returns_zero_pair (imread : String → LoadResult)
    (seg : GrayImage → Option (ℕ → ℕ → Bool)) (image_path msg : String)
    (h : imread image_path = LoadResult.failure msg) :
    calculate_q1 imread seg image_path = (0, 0) := by
  unfold calculate_q1
  rw [h]
  rfl

/-- C6, witness on a loader for which every read fails. -/
theorem load_error_returns_zero_pair_witness :
    calculate_q1 missingFileLoader thresholdSegmenter "missing.bmp" = (0, 0) :=
  load_error_returns_zero_pair missingFileLoader thresholdSegmenter
    "missing.bmp" ("Could not load image from " ++ "missing.bmp") rfl

/-- C7: for every image the pipeline accepts, the returned pair has an
integer Q1 score within [0, 100] and a pixel count bounded by the image's
total number of pixels. -/
theorem q1_result_range (seg : GrayImage → Option (ℕ → ℕ → Bool))
    (img : GrayImage) :
    0 ≤ (calculate_q1_run seg (LoadResult.ok img)).1 ∧
      (calculate_q1_run seg (LoadResult.ok img)).1 ≤ 100 ∧
      (calculate_q1_run seg (LoadResult.ok img)).2 ≤ img.width * img.height := by
  rcases hseg : seg img with - | mask
  · simp [calculate_q1_run, hseg]
  · simp only [calculate_q1_run, hseg]
    refine ⟨calculate_q1_score_nonneg _, calculate_q1_score_le_100 _, ?_⟩
    calc countMask img.height img.width mask
        ≤ img.height * img.width := countMask_le _ _ _
      _ = img.width * img.height := Nat.mul_comm _ _

/-- C8: the result of `calculate_q1` is a function of the image content
alone: two runs that decode the same image bytes — even under different
paths or filesystem states — produce the same `(Q1, count)` pair; the
segmentation and scoring steps introduce no run-to-run variation. -/
theorem q1_deterministic (seg : GrayImage → Option (ℕ → ℕ → Bool))
    (imread₁ imread₂ : String → LoadResult) (path₁ path₂ : String)
    (h : imread₁ path₁ = imread₂ path₂) :
    calculate_q1 imread₁ seg path₁ = calculate_q1 imread₂ seg path₂ := by
  unfold calculate_q1
  rw [h]

/-- C8, witness: two reads of the same image content agree. -/
theorem q1_deterministic_witness :
    calculate_q1 sampleLoader thresholdSegmenter "run1.bmp" =
      calculate_q1 sampleLoader thresholdSegmenter "run2.bmp" :=
  q1_deterministic thresholdSegmenter sampleLoader sampleLoader
    "run1.bmp" "run2.bmp" rfl

/-- C9: evaluation of `create_test_image` at the failing input
`width = 3, height = 3, foreground_pixels = 2`: a layout with exactly 2
foreground cells fits in the 3×3 frame (2 ≤ 3·3), yet the generated image
contains 4 maximum-intensity cells — the centered square uses the rounded-up
side `ceil(sqrt 2) = 2`, and the "fill-in remainder" loop scans only the
already-filled square, so it can never adjust the count. -/
theorem create_test_image_count_mismatch :
    foregroundCount 3 3 (create_test_image 3 3 2) = 4 ∧ (2 : ℕ) ≤ 3 * 3 := by
  constructor
  · have hs : Nat.sqrt 2 = 1 := by norm_num
    norm_num [create_test_image, hs]
    decide
  · norm_num

/-- C10: any image whose selected largest filled foreground region has
between 1 and 99 pixels is scored `(0, count)` with a positive count: a
zero Q1 score therefore does not imply the `(0, 0)` failure sentinel, and
the count component distinguishes a small legitimate foreground from a
load failure or an empty foreground. -/
theorem small_foreground_zero_score (seg : GrayImage → Option (ℕ → ℕ → Bool))
    (img : GrayImage) (mask : ℕ → ℕ → Bool) (hseg : seg img = some mask)
    (h1 : 1 ≤ countMask img.height img.width mask)
    (h99 : countMask img.height img.width mask ≤ 99) :
    calculate_q1_run seg (LoadResult.ok img) =
      (0, countMask img.height img.width mask) ∧
      0 < countMask img.height img.width mask := by
  refine ⟨?_, by omega⟩
  simp only [calculate_q1_run, hseg]
  unfold calculate_q1_fromCount
  rw [calculate_q1_score_eq_zero_of_le_100 (by omega)]

/-- C10, witness: the 4×4 sample image, whose thresholded foreground has 4
pixels, is scored `(0, 4)`. -/
theorem small_foreground_zero_score_witness :
    calculate_q1_run thresholdSegmenter (LoadResult.ok sampleImage) =
      (0, countMask sampleImage.height sampleImage.width
        (thresholdMask sampleImage)) ∧
      0 < countMask sampleImage.height sampleImage.width
        (thresholdMask sampleImage) :=
  small_foreground_zero_score thresholdSegmenter sampleImage
    (thresholdMask sampleImage) rfl (by decide) (by decide)

end QualityMetrics
